import Mathlib

/-!
Verification of the CSS selector builder of `src/05-objects-tasks.js`
(`BaseSelector` and `cssSelectorBuilder`).

A `BaseSelector` holds a `type` string (the space-joined history of the
category names appended so far; `undefined`, modelled as `none`, for the
result of `combine`), a `value` string (the rendered selector text) and a
`message` property which the error helpers assign just before throwing.

Each fragment method is modelled as a function returning both the call
result (`ok`, a thrown `Error` with its message, or a runtime `TypeError`
from reading a property of `undefined`) and the state of the receiver
object after the call, so that mutation of the receiver is observable.
-/

/-- Characters treated as whitespace by JavaScript's `String.prototype.trim`
(restricted to the ones that can occur here: type strings only ever contain
ordinary spaces between category names). -/
def jsWs (c : Char) : Bool :=
  c == ' ' || c == '\t' || c == '\n' || c == '\r'

/-- JavaScript `String.prototype.trim`: drop whitespace from both ends. -/
def jsTrim (l : List Char) : List Char :=
  ((l.dropWhile jsWs).reverse.dropWhile jsWs).reverse

/-- JavaScript `String.prototype.includes`: scan every position for the
needle as a prefix of the remaining suffix. -/
def strIncludes (needle : List Char) : List Char → Bool
  | [] => needle.isPrefixOf []
  | c :: cs => needle.isPrefixOf (c :: cs) || strIncludes needle cs

/-- Fuelled worker for `replaceAlts`.  At each position it tries the
alternatives in order (as a JS regex alternation does); on a match it
deletes the matched text and resumes after it, otherwise it keeps the
character and moves one position right.  Fuel `l.length` suffices because
every step consumes at least one character. -/
def replaceAltsFuel (alts : List (List Char)) : Nat → List Char → List Char
  | 0, l => l
  | _ + 1, [] => []
  | fuel + 1, c :: cs =>
    match alts.find? (fun a => !a.isEmpty && a.isPrefixOf (c :: cs)) with
    | some a => replaceAltsFuel alts fuel ((c :: cs).drop a.length)
    | none => c :: replaceAltsFuel alts fuel cs

/-- JavaScript `s.replace(new RegExp(alts.join('|'), 'g'), '')` for a list
of literal alternatives: delete every (leftmost, first-alternative) match. -/
def replaceAlts (alts : List (List Char)) (l : List Char) : List Char :=
  replaceAltsFuel alts l.length l

/-- `isValidType(...types)` from `BaseSelector` (lines 431-434 of
`05-objects-tasks.js`): delete every occurrence of the given category names
from the type string, trim, and test for emptiness. -/
def isValidType (t : String) (types : List String) : Bool :=
  (jsTrim (replaceAlts (types.map String.data) t.data)).length == 0

/-- JavaScript `hay.includes(needle)`. -/
def jsIncludes (hay needle : String) : Bool :=
  strIncludes needle.data hay.data

/-- Message assigned and thrown by `throwOrderError` (lines 440-443). -/
def orderMessage : String :=
  "Selector parts should be arranged in the following order: element, id, class, attribute, pseudo-class, pseudo-element"

/-- Message assigned and thrown by `throwRepeatError` (lines 445-448). -/
def repeatMessage : String :=
  "Element, id and pseudo-element should not occur more then one time inside the selector"

/-- Outcome of a failed method call: an explicitly thrown `Error` with its
message, or a runtime `TypeError` (reading a property of `undefined`). -/
inductive SelErr where
  | thrown (msg : String)
  | typeError
deriving DecidableEq, Repr

/-- The `BaseSelector` object: `type` is the space-joined category history
(`none` models JavaScript `undefined`, as produced by `combine`), `value`
the rendered selector string, `message` the property set by the two throw
helpers (absent, i.e. `none`, until a failing call assigns it). -/
structure BaseSelector where
  type : Option String
  value : String
  message : Option String
deriving DecidableEq, Repr

/-- Result of a fragment method call. -/
inductive SelResult where
  | ok (s : BaseSelector)
  | error (e : SelErr)
deriving DecidableEq, Repr

/-- A method call yields a result and the receiver's state after the call
(the receiver is mutated only by the `this.message = ...` assignments in
the throw helpers). -/
structure MethodOut where
  result : SelResult
  post : BaseSelector
deriving DecidableEq, Repr

/-- `BaseSelector.prototype.element` (lines 362-373).  With `type`
undefined (`none`), `this.type === 'element'` is `false` and
`this.type.length` then raises a `TypeError`. -/
def BaseSelector.element (s : BaseSelector) (v : String) : MethodOut :=
  match s.type with
  | none => ⟨.error .typeError, s⟩
  | some t =>
    if t = "element" then
      ⟨.error (.thrown repeatMessage), { s with message := some repeatMessage }⟩
    else if 0 < t.length then
      ⟨.error (.thrown orderMessage), { s with message := some orderMessage }⟩
    else
      ⟨.ok ⟨some (t ++ " element"), s.value ++ v, none⟩, s⟩

/-- `BaseSelector.prototype.id` (lines 375-386).  With `type` undefined,
`this.type.includes` raises a `TypeError`. -/
def BaseSelector.id (s : BaseSelector) (v : String) : MethodOut :=
  match s.type with
  | none => ⟨.error .typeError, s⟩
  | some t =>
    if jsIncludes t "id" then
      ⟨.error (.thrown repeatMessage), { s with message := some repeatMessage }⟩
    else if !isValidType t ["element"] then
      ⟨.error (.thrown orderMessage), { s with message := some orderMessage }⟩
    else
      ⟨.ok ⟨some (t ++ " id"), s.value ++ "#" ++ v, none⟩, s⟩

/-- `BaseSelector.prototype.class` (lines 388-396).  With `type` undefined,
`this.type.replace` inside `isValidType` raises a `TypeError`. -/
def BaseSelector.«class» (s : BaseSelector) (v : String) : MethodOut :=
  match s.type with
  | none => ⟨.error .typeError, s⟩
  | some t =>
    if !isValidType t ["element", "id", "class"] then
      ⟨.error (.thrown orderMessage), { s with message := some orderMessage }⟩
    else
      ⟨.ok ⟨some (t ++ " class"), s.value ++ "." ++ v, none⟩, s⟩

/-- `BaseSelector.prototype.attr` (lines 398-406). -/
def BaseSelector.attr (s : BaseSelector) (v : String) : MethodOut :=
  match s.type with
  | none => ⟨.error .typeError, s⟩
  | some t =>
    if !isValidType t ["element", "id", "class", "attr"] then
      ⟨.error (.thrown orderMessage), { s with message := some orderMessage }⟩
    else
      ⟨.ok ⟨some (t ++ " attr"), s.value ++ "[" ++ v ++ "]", none⟩, s⟩

/-- `BaseSelector.prototype.pseudoClass` (lines 408-416). -/
def BaseSelector.pseudoClass (s : BaseSelector) (v : String) : MethodOut :=
  match s.type with
  | none => ⟨.error .typeError, s⟩
  | some t =>
    if !isValidType t ["element", "id", "class", "attr", "pseudoClass"] then
      ⟨.error (.thrown orderMessage), { s with message := some orderMessage }⟩
    else
      ⟨.ok ⟨some (t ++ " pseudoClass"), s.value ++ ":" ++ v, none⟩, s⟩

/-- `BaseSelector.prototype.pseudoElement` (lines 418-429). -/
def BaseSelector.pseudoElement (s : BaseSelector) (v : String) : MethodOut :=
  match s.type with
  | none => ⟨.error .typeError, s⟩
  | some t =>
    if jsIncludes t "pseudoElement" then
      ⟨.error (.thrown repeatMessage), { s with message := some repeatMessage }⟩
    else if !isValidType t ["element", "id", "class", "attr", "pseudoClass"] then
      ⟨.error (.thrown orderMessage), { s with message := some orderMessage }⟩
    else
      ⟨.ok ⟨some (t ++ " pseudoElement"), s.value ++ "::" ++ v, none⟩, s⟩

/-- `BaseSelector.prototype.stringify` (lines 436-438):
`return this.value.toString();`. -/
def BaseSelector.stringify (s : BaseSelector) : String := s.value

/-- `stringify` as a call on the object: the body contains no assignment,
so the returned string is paired with the unchanged receiver state. -/
def BaseSelector.stringifyM (s : BaseSelector) : String × BaseSelector :=
  (s.value, s)

/-- `cssSelectorBuilder.element` (lines 452-454). -/
def cssSelectorBuilder.element (v : String) : BaseSelector :=
  ⟨some "element", v, none⟩

/-- `cssSelectorBuilder.id` (lines 455-457). -/
def cssSelectorBuilder.id (v : String) : BaseSelector :=
  ⟨some "id", "#" ++ v, none⟩

/-- `cssSelectorBuilder.class` (lines 458-460). -/
def cssSelectorBuilder.«class» (v : String) : BaseSelector :=
  ⟨some "class", "." ++ v, none⟩

/-- `cssSelectorBuilder.attr` (lines 461-463). -/
def cssSelectorBuilder.attr (v : String) : BaseSelector :=
  ⟨some "attr", "[" ++ v ++ "]", none⟩

/-- `cssSelectorBuilder.pseudoClass` (lines 464-466). -/
def cssSelectorBuilder.pseudoClass (v : String) : BaseSelector :=
  ⟨some "pseudoClass", ":" ++ v, none⟩

/-- `cssSelectorBuilder.pseudoElement` (lines 467-469). -/
def cssSelectorBuilder.pseudoElement (v : String) : BaseSelector :=
  ⟨some "pseudoElement", "::" ++ v, none⟩

/-- `cssSelectorBuilder.combine` (lines 470-476): `new BaseSelector(undefined,
[selector1.value, combinator, selector2.value].join(' '))`. -/
def cssSelectorBuilder.combine (s1 : BaseSelector) (comb : String) (s2 : BaseSelector) : BaseSelector :=
  ⟨none, s1.value ++ " " ++ comb ++ " " ++ s2.value, none⟩

/-- The six fragment categories. -/
inductive Cat where
  | element
  | id
  | «class»
  | attr
  | pseudoClass
  | pseudoElement
deriving DecidableEq, Repr

/-- The category-name token used in the `type` strings. -/
def catName : Cat → String
  | .element => "element"
  | .id => "id"
  | .«class» => "class"
  | .attr => "attr"
  | .pseudoClass => "pseudoClass"
  | .pseudoElement => "pseudoElement"

/-- The category's name as a character list. -/
def nameChars (c : Cat) : List Char := (catName c).data

/-- Position in the fixed order element, id, class, attribute, pseudo-class,
pseudo-element. -/
def catPos : Cat → Nat
  | .element => 0
  | .id => 1
  | .«class» => 2
  | .attr => 3
  | .pseudoClass => 4
  | .pseudoElement => 5

/-- The rendered syntax of one fragment, exactly as the code concatenates
it onto `value`. -/
def renderFrag : Cat → String → String
  | .element, v => v
  | .id, v => "#" ++ v
  | .«class», v => "." ++ v
  | .attr, v => "[" ++ v ++ "]"
  | .pseudoClass, v => ":" ++ v
  | .pseudoElement, v => "::" ++ v

/-- Entry points of the `cssSelectorBuilder` facade, by category. -/
def entry : Cat → String → BaseSelector
  | .element, v => cssSelectorBuilder.element v
  | .id, v => cssSelectorBuilder.id v
  | .«class», v => cssSelectorBuilder.«class» v
  | .attr, v => cssSelectorBuilder.attr v
  | .pseudoClass, v => cssSelectorBuilder.pseudoClass v
  | .pseudoElement, v => cssSelectorBuilder.pseudoElement v

/-- Dispatch to the six `BaseSelector` fragment methods, by category. -/
def applyM (s : BaseSelector) : Cat → String → MethodOut
  | .element, v => s.element v
  | .id, v => s.id v
  | .«class», v => s.«class» v
  | .attr, v => s.attr v
  | .pseudoClass, v => s.pseudoClass v
  | .pseudoElement, v => s.pseudoElement v

/-- One chain-extension step (errors propagate). -/
def stepChain (r : SelResult) (p : Cat × String) : SelResult :=
  match r with
  | .ok s => (applyM s p.1 p.2).result
  | .error e => .error e

/-- Build a chain: a facade entry point followed by fragment method calls. -/
def buildChain (first : Cat × String) (rest : List (Cat × String)) : SelResult :=
  rest.foldl stepChain (.ok (entry first.1 first.2))

/-- The space-joined `type` string after the spine of `h` ends. -/
def typeTail : List Cat → List Char
  | [] => []
  | d :: ds => ' ' :: (nameChars d ++ typeTail ds)

/-- The `type` string a chain with category history `h` carries, as a
character list: the category names joined by single spaces. -/
def typeChars : List Cat → List Char
  | [] => []
  | c :: rest => nameChars c ++ typeTail rest

/-- The `type` string a chain with category history `h` carries. -/
def typeOfHistory (h : List Cat) : String := ⟨typeChars h⟩

/-- The category history of a fragment list. -/
def histOf (l : List (Cat × String)) : List Cat := l.map Prod.fst

/-- Append the rendered syntax of each fragment onto an accumulator, in
order, exactly as chain building does. -/
def appendRendered (v : String) (l : List (Cat × String)) : String :=
  l.foldl (fun acc p => acc ++ renderFrag p.1 p.2) v

/-- The concatenation of every fragment's rendered syntax, in order. -/
def renderedChain (l : List (Cat × String)) : String := appendRendered "" l

/-- Category positions non-decreasing along the list. -/
def nondecr : List Cat → Bool
  | [] => true
  | [_] => true
  | a :: b :: rest => decide (catPos a ≤ catPos b) && nondecr (b :: rest)

/-- A valid ordering per the specification: category positions are
non-decreasing along the chain and element, id, pseudo-element occur at
most once. -/
def validOrder (l : List Cat) : Bool :=
  nondecr l &&
  decide (l.count Cat.element ≤ 1) &&
  decide (l.count Cat.id ≤ 1) &&
  decide (l.count Cat.pseudoElement ≤ 1)

/-- Observe a build result through `stringify`. -/
def stringifyResult : SelResult → Option String
  | .ok s => some s.stringify
  | .error _ => none

/-! ### Generic lemmas about the string scanners -/

theorem find?_congr_pred {α : Type} {p q : α → Bool} :
    ∀ l : List α, (∀ a ∈ l, p a = q a) → l.find? p = l.find? q := by
  intro l
  induction l with
  | nil => intro _; rfl
  | cons a l ih =>
    intro h
    rw [List.find?_cons, List.find?_cons, h a (List.mem_cons_self a l)]
    cases q a with
    | true => rfl
    | false => exact ih fun x hx => h x (List.mem_cons_of_mem _ hx)

theorem replaceAltsFuel_congr (alts : List (List Char)) :
    ∀ f₁ f₂ l, l.length ≤ f₁ → l.length ≤ f₂ →
      replaceAltsFuel alts f₁ l = replaceAltsFuel alts f₂ l := by
  intro f₁
  induction f₁ with
  | zero =>
    intro f₂ l h₁ _
    have hl : l = [] := List.length_eq_zero.mp (Nat.le_zero.mp h₁)
    subst hl
    cases f₂ <;> rfl
  | succ f ih =>
    intro f₂ l h₁ h₂
    cases l with
    | nil => cases f₂ <;> rfl
    | cons c cs =>
      cases f₂ with
      | zero => simp at h₂
      | succ f₂ =>
        simp only [replaceAltsFuel]
        cases hf : (alts.find? fun a => !a.isEmpty && a.isPrefixOf (c :: cs)) with
        | none =>
          rw [ih f₂ cs (Nat.le_of_succ_le_succ h₁) (Nat.le_of_succ_le_succ h₂)]
        | some a =>
          have hpa := List.find?_some hf
          have halen : 1 ≤ a.length := by
            cases a with
            | nil => simp at hpa
            | cons x xs => simp
          have hlen₁ : ((c :: cs).drop a.length).length ≤ f := by
            rw [List.length_drop]
            simp only [List.length_cons] at h₁ ⊢
            omega
          have hlen₂ : ((c :: cs).drop a.length).length ≤ f₂ := by
            rw [List.length_drop]
            simp only [List.length_cons] at h₂ ⊢
            omega
          exact ih f₂ _ hlen₁ hlen₂

theorem replaceAlts_cons (alts : List (List Char)) (c : Char) (cs : List Char) :
    replaceAlts alts (c :: cs) =
      match alts.find? (fun a => !a.isEmpty && a.isPrefixOf (c :: cs)) with
      | some a => replaceAlts alts ((c :: cs).drop a.length)
      | none => c :: replaceAlts alts cs := by
  show replaceAltsFuel alts (c :: cs).length (c :: cs) = _
  simp only [List.length_cons, replaceAltsFuel]
  cases hf : (alts.find? fun a => !a.isEmpty && a.isPrefixOf (c :: cs)) with
  | none => rfl
  | some a =>
    have hpa := List.find?_some hf
    have halen : 1 ≤ a.length := by
      cases a with
      | nil => simp at hpa
      | cons x xs => simp
    exact replaceAltsFuel_congr alts _ _ _
      (by rw [List.length_drop]; simp only [List.length_cons]; omega)
      (Nat.le_refl _)

theorem isPrefixOf_append_space {a : List Char} (ha : ' ' ∉ a) :
    ∀ xs ys : List Char, a.isPrefixOf (xs ++ ' ' :: ys) = a.isPrefixOf xs := by
  induction a with
  | nil => intro xs ys; cases xs <;> rfl
  | cons b bs ih =>
    intro xs ys
    cases xs with
    | nil =>
      have hb : b ≠ ' ' := fun h => ha (by simp [h])
      simp [List.isPrefixOf, hb]
    | cons x xs =>
      simp only [List.cons_append, List.isPrefixOf, List.append_eq]
      rw [ih (fun h => ha (List.mem_cons_of_mem _ h)) xs ys]

theorem find?_space_none (alts : List (List Char))
    (hg : ∀ a ∈ alts, a ≠ [] ∧ ' ' ∉ a) (ys : List Char) :
    (alts.find? fun a => !a.isEmpty && a.isPrefixOf (' ' :: ys)) = none := by
  rw [List.find?_eq_none]
  intro a ha
  obtain ⟨hne, hsp⟩ := hg a ha
  cases a with
  | nil => exact absurd rfl hne
  | cons b bs =>
    have hb : b ≠ ' ' := fun h => hsp (by simp [h])
    simp [List.isPrefixOf, hb]

theorem replaceAlts_space_cons (alts : List (List Char))
    (hg : ∀ a ∈ alts, a ≠ [] ∧ ' ' ∉ a) (ys : List Char) :
    replaceAlts alts (' ' :: ys) = ' ' :: replaceAlts alts ys := by
  rw [replaceAlts_cons, find?_space_none alts hg ys]

theorem replaceAlts_append_space (alts : List (List Char))
    (hg : ∀ a ∈ alts, a ≠ [] ∧ ' ' ∉ a) :
    ∀ n xs ys, xs.length ≤ n →
      replaceAlts alts (xs ++ ' ' :: ys)
        = replaceAlts alts xs ++ ' ' :: replaceAlts alts ys := by
  intro n
  induction n with
  | zero =>
    intro xs ys h
    have hx : xs = [] := List.length_eq_zero.mp (Nat.le_zero.mp h)
    subst hx
    rw [List.nil_append, replaceAlts_space_cons alts hg ys]
    rfl
  | succ n ih =>
    intro xs ys h
    cases xs with
    | nil =>
      rw [List.nil_append, replaceAlts_space_cons alts hg ys]
      rfl
    | cons c cs =>
      rw [List.cons_append, replaceAlts_cons, replaceAlts_cons alts c cs]
      have hpred : ∀ a ∈ alts,
          (!a.isEmpty && a.isPrefixOf (c :: (cs ++ ' ' :: ys)))
            = (!a.isEmpty && a.isPrefixOf (c :: cs)) := by
        intro a ha
        rw [← List.cons_append, isPrefixOf_append_space (hg a ha).2 (c :: cs) ys]
      rw [find?_congr_pred alts hpred]
      cases hf : (alts.find? fun a => !a.isEmpty && a.isPrefixOf (c :: cs)) with
      | none =>
        rw [ih cs ys (Nat.le_of_succ_le_succ (by simpa using h))]
        rfl
      | some a =>
        have hpa := List.find?_some hf
        have hpre : a.isPrefixOf (c :: cs) = true := (Bool.and_eq_true _ _ |>.mp hpa).2
        have halen₁ : 1 ≤ a.length := by
          cases a with
          | nil => simp at hpa
          | cons x xs => simp
        have halen : a.length ≤ (c :: cs).length :=
          (List.isPrefixOf_iff_prefix.mp hpre).length_le
        dsimp only
        rw [← List.cons_append, List.drop_append_of_le_length halen]
        exact ih _ ys (by
          rw [List.length_drop]
          simp only [List.length_cons] at halen h ⊢
          omega)

theorem strIncludes_nil {needle : List Char} (hne : needle ≠ []) :
    strIncludes needle [] = false := by
  cases needle with
  | nil => exact absurd rfl hne
  | cons b bs => rfl

theorem strIncludes_space_cons {needle : List Char} (hne : needle ≠ [])
    (hsp : ' ' ∉ needle) (ys : List Char) :
    strIncludes needle (' ' :: ys) = strIncludes needle ys := by
  cases needle with
  | nil => exact absurd rfl hne
  | cons b bs =>
    have hb : b ≠ ' ' := fun h => hsp (by simp [h])
    show ((b :: bs).isPrefixOf (' ' :: ys) || strIncludes (b :: bs) ys) = _
    simp [List.isPrefixOf, hb]

theorem strIncludes_append_space {needle : List Char} (hne : needle ≠ [])
    (hsp : ' ' ∉ needle) :
    ∀ xs ys, strIncludes needle (xs ++ ' ' :: ys)
      = (strIncludes needle xs || strIncludes needle ys) := by
  intro xs
  induction xs with
  | nil =>
    intro ys
    rw [List.nil_append, strIncludes_space_cons hne hsp, strIncludes_nil hne]
    simp
  | cons c cs ih =>
    intro ys
    show (needle.isPrefixOf (c :: (cs ++ ' ' :: ys)) || strIncludes needle (cs ++ ' ' :: ys)) = _
    rw [← List.cons_append, isPrefixOf_append_space hsp (c :: cs) ys, ih ys, ← Bool.or_assoc]
    rfl

/-! ### Facts about category names and history type strings -/

theorem nameChars_ne_nil (c : Cat) : nameChars c ≠ [] := by
  cases c <;> decide

theorem nameChars_no_space (c : Cat) : ' ' ∉ nameChars c := by
  cases c <;> decide

theorem nameChars_not_all_ws (c : Cat) : (nameChars c).all jsWs = false := by
  cases c <;> decide

theorem typeTail_append (l₁ l₂ : List Cat) :
    typeTail (l₁ ++ l₂) = typeTail l₁ ++ typeTail l₂ := by
  induction l₁ with
  | nil => rfl
  | cons d ds ih => simp [typeTail, ih, List.append_assoc]

theorem typeChars_snoc (c : Cat) (rest : List Cat) (d : Cat) :
    typeChars ((c :: rest) ++ [d]) = typeChars (c :: rest) ++ ' ' :: nameChars d := by
  show nameChars c ++ typeTail (rest ++ [d]) = (nameChars c ++ typeTail rest) ++ ' ' :: nameChars d
  rw [typeTail_append, List.append_assoc]
  show nameChars c ++ (typeTail rest ++ ' ' :: (nameChars d ++ [])) = _
  rw [List.append_nil]

theorem typeOfHistory_snoc (c : Cat) (rest : List Cat) (d : Cat) :
    typeOfHistory ((c :: rest) ++ [d]) = typeOfHistory (c :: rest) ++ " " ++ catName d := by
  apply String.ext
  rw [String.data_append, String.data_append]
  show typeChars ((c :: rest) ++ [d]) = (typeChars (c :: rest) ++ [' ']) ++ (catName d).data
  rw [typeChars_snoc, List.append_assoc]
  rfl

theorem strIncludes_name_append {needle : List Char} (hne : needle ≠ [])
    (hsp : ' ' ∉ needle) {target : Cat}
    (hword : ∀ c : Cat, (strIncludes needle (nameChars c) = true ↔ c = target)) :
    ∀ (d : Cat) (ds : List Cat),
      (strIncludes needle (nameChars d ++ typeTail ds) = true ↔ target ∈ d :: ds) := by
  intro d ds
  induction ds generalizing d with
  | nil =>
    show (strIncludes needle (nameChars d ++ []) = true ↔ _)
    rw [List.append_nil, hword d]
    simp [eq_comm]
  | cons e es ih =>
    show (strIncludes needle (nameChars d ++ ' ' :: (nameChars e ++ typeTail es)) = true ↔ _)
    rw [strIncludes_append_space hne hsp]
    constructor
    · intro hx
      rcases Bool.or_eq_true _ _ |>.mp hx with h1 | h2
      · rw [← (hword d).mp h1]
        exact List.mem_cons_self _ _
      · exact List.mem_cons_of_mem _ ((ih e).mp h2)
    · intro hx
      rcases List.mem_cons.mp hx with h1 | h2
      · exact Bool.or_eq_true _ _ |>.mpr (Or.inl ((hword d).mpr h1.symm))
      · exact Bool.or_eq_true _ _ |>.mpr (Or.inr ((ih e).mpr h2))

theorem strIncludes_typeChars {needle : List Char} (hne : needle ≠ [])
    (hsp : ' ' ∉ needle) {target : Cat}
    (hword : ∀ c : Cat, (strIncludes needle (nameChars c) = true ↔ c = target)) :
    ∀ h : List Cat, (strIncludes needle (typeChars h) = true ↔ target ∈ h) := by
  intro h
  cases h with
  | nil =>
    rw [show typeChars [] = [] from rfl, strIncludes_nil hne]
    simp
  | cons d ds => exact strIncludes_name_append hne hsp hword d ds

theorem jsIncludes_id_iff (h : List Cat) :
    (jsIncludes (typeOfHistory h) "id" = true ↔ Cat.id ∈ h) :=
  strIncludes_typeChars (by decide) (by decide)
    (by intro c; cases c <;> decide) h

theorem jsIncludes_pseudoElement_iff (h : List Cat) :
    (jsIncludes (typeOfHistory h) "pseudoElement" = true ↔ Cat.pseudoElement ∈ h) :=
  strIncludes_typeChars (by decide) (by decide)
    (by intro c; cases c <;> decide) h

/-! ### `isValidType` over history type strings -/

theorem jsTrim_eq_nil_iff (l : List Char) : jsTrim l = [] ↔ l.all jsWs = true := by
  rw [jsTrim, List.reverse_eq_nil_iff, List.dropWhile_eq_nil_iff]
  constructor
  · intro H
    rw [List.all_eq_true]
    intro x hx
    have hx' : x ∈ l.takeWhile jsWs ++ l.dropWhile jsWs := by
      rw [List.takeWhile_append_dropWhile]
      exact hx
    rcases List.mem_append.mp hx' with h1 | h2
    · exact List.mem_takeWhile_imp h1
    · exact H x (List.mem_reverse.mpr h2)
  · intro H x hx
    exact List.all_eq_true.mp H x
      ((List.dropWhile_sublist jsWs).mem (List.mem_reverse.mp hx))

theorem trim_len_zero (l : List Char) : ((jsTrim l).length == 0) = l.all jsWs := by
  rw [Bool.eq_iff_iff]
  simp only [beq_iff_eq, List.length_eq_zero]
  exact jsTrim_eq_nil_iff l

theorem replaceAlts_name_append (alts : List (List Char))
    (hg : ∀ a ∈ alts, a ≠ [] ∧ ' ' ∉ a) (F : Cat → Bool)
    (hword : ∀ c : Cat, replaceAlts alts (nameChars c) = (if F c then [] else nameChars c)) :
    ∀ (d : Cat) (ds : List Cat),
      (replaceAlts alts (nameChars d ++ typeTail ds)).all jsWs = (d :: ds).all F := by
  intro d ds
  induction ds generalizing d with
  | nil =>
    show (replaceAlts alts (nameChars d ++ [])).all jsWs = _
    rw [List.append_nil, hword d]
    cases hF : F d with
    | true => simp [List.all_cons, hF]
    | false => simp [List.all_cons, hF, nameChars_not_all_ws d]
  | cons e es ih =>
    show (replaceAlts alts (nameChars d ++ ' ' :: (nameChars e ++ typeTail es))).all jsWs = _
    rw [replaceAlts_append_space alts hg (nameChars d).length (nameChars d) _ (Nat.le_refl _)]
    rw [List.all_append, List.all_cons, hword d, ih e]
    have hws : jsWs ' ' = true := by decide
    cases hF : F d with
    | true => simp [hF, hws, List.all_cons]
    | false => simp [hF, hws, nameChars_not_all_ws d, List.all_cons]

theorem isValidType_typeOf (types : List String) (F : Cat → Bool)
    (hg : ∀ a ∈ types.map String.data, a ≠ [] ∧ ' ' ∉ a)
    (hword : ∀ c : Cat,
      replaceAlts (types.map String.data) (nameChars c) = (if F c then [] else nameChars c)) :
    ∀ h : List Cat, isValidType (typeOfHistory h) types = h.all F := by
  intro h
  show ((jsTrim (replaceAlts (types.map String.data) (typeChars h))).length == 0) = h.all F
  rw [trim_len_zero]
  cases h with
  | nil => rfl
  | cons d ds =>
    exact replaceAlts_name_append (types.map String.data) hg F hword d ds

theorem isValidType_le0 (h : List Cat) :
    isValidType (typeOfHistory h) ["element"]
      = h.all (fun c => decide (catPos c ≤ 0)) :=
  isValidType_typeOf _ _ (by decide) (by intro c; cases c <;> decide) h

theorem isValidType_le2 (h : List Cat) :
    isValidType (typeOfHistory h) ["element", "id", "class"]
      = h.all (fun c => decide (catPos c ≤ 2)) :=
  isValidType_typeOf _ _ (by decide) (by intro c; cases c <;> decide) h

theorem isValidType_le3 (h : List Cat) :
    isValidType (typeOfHistory h) ["element", "id", "class", "attr"]
      = h.all (fun c => decide (catPos c ≤ 3)) :=
  isValidType_typeOf _ _ (by decide) (by intro c; cases c <;> decide) h

theorem isValidType_le4 (h : List Cat) :
    isValidType (typeOfHistory h) ["element", "id", "class", "attr", "pseudoClass"]
      = h.all (fun c => decide (catPos c ≤ 4)) :=
  isValidType_typeOf _ _ (by decide) (by intro c; cases c <;> decide) h

/-! ### The type string determines emptiness and the singleton element case -/

theorem typeOfHistory_ne_element (c d : Cat) (ds : List Cat) :
    typeOfHistory (c :: d :: ds) ≠ "element" := by
  intro H
  have hsp : ' ' ∈ (typeOfHistory (c :: d :: ds)).data := by
    show ' ' ∈ nameChars c ++ ' ' :: (nameChars d ++ typeTail ds)
    exact List.mem_append_right _ (List.mem_cons_self _ _)
  rw [H] at hsp
  exact absurd hsp (by decide)

theorem typeOfHistory_eq_element_iff (h : List Cat) :
    typeOfHistory h = "element" ↔ h = [Cat.element] := by
  cases h with
  | nil => decide
  | cons c rest =>
    cases rest with
    | nil => cases c <;> decide
    | cons d ds =>
      constructor
      · intro H; exact absurd H (typeOfHistory_ne_element c d ds)
      · intro H; simp at H

theorem typeOfHistory_length_pos (c : Cat) (rest : List Cat) :
    0 < (typeOfHistory (c :: rest)).length := by
  show 0 < (nameChars c ++ typeTail rest).length
  rw [List.length_append]
  have h1 : 0 < (nameChars c).length := List.length_pos.mpr (nameChars_ne_nil c)
  omega

/-! ### Valid orderings -/

theorem nondecr_iff (l : List Cat) :
    nondecr l = true ↔ l.Chain' fun a b => catPos a ≤ catPos b := by
  induction l with
  | nil => simp [nondecr]
  | cons a l ih =>
    cases l with
    | nil => simp [nondecr]
    | cons b t =>
      rw [show nondecr (a :: b :: t)
          = (decide (catPos a ≤ catPos b) && nondecr (b :: t)) from rfl]
      rw [Bool.and_eq_true, List.chain'_cons, decide_eq_true_eq]
      exact and_congr Iff.rfl ih

theorem validOrder_iff (l : List Cat) : validOrder l = true ↔
    ((l.Chain' fun a b => catPos a ≤ catPos b) ∧ l.count Cat.element ≤ 1 ∧
      l.count Cat.id ≤ 1 ∧ l.count Cat.pseudoElement ≤ 1) := by
  simp [validOrder, Bool.and_eq_true, decide_eq_true_eq, and_assoc, nondecr_iff]

theorem catPosTrans : IsTrans Cat (fun a b => catPos a ≤ catPos b) :=
  ⟨fun _ _ _ => Nat.le_trans⟩

theorem validOrder_pairwise {l : List Cat} (h : validOrder l = true) :
    l.Pairwise fun a b => catPos a ≤ catPos b := by
  have hc := ((validOrder_iff l).mp h).1
  exact (@List.chain'_iff_pairwise Cat _ catPosTrans l).mp hc

theorem valid_snoc_le {h : List Cat} {c : Cat} (hv : validOrder (h ++ [c]) = true) :
    ∀ d ∈ h, catPos d ≤ catPos c := by
  have hp := validOrder_pairwise hv
  rw [List.pairwise_append] at hp
  intro d hd
  exact hp.2.2 d hd c (List.mem_singleton.mpr rfl)

theorem count_snoc_not_mem {h : List Cat} {c : Cat}
    (hcount : (h ++ [c]).count c ≤ 1) : c ∉ h := by
  intro hmem
  rw [List.count_append] at hcount
  have h1 : 0 < h.count c := List.count_pos_iff.mpr hmem
  have h2 : List.count c [c] = 1 := by simp
  omega

theorem validOrder_append_left {l₁ l₂ : List Cat}
    (h : validOrder (l₁ ++ l₂) = true) : validOrder l₁ = true := by
  rw [validOrder_iff] at h ⊢
  obtain ⟨hc, h1, h2, h3⟩ := h
  rw [List.count_append] at h1 h2 h3
  exact ⟨(List.chain'_append.mp hc).1, by omega, by omega, by omega⟩

theorem catPos_le_five (c : Cat) : catPos c ≤ 5 := by cases c <;> decide

theorem cat_eq_element_of_le0 {d : Cat} (h : catPos d ≤ 0) : d = Cat.element := by
  cases d
  · rfl
  all_goals simp [catPos] at h

theorem catPos_le0_of_le1_ne_id {d : Cat} (h1 : catPos d ≤ 1) (h2 : d ≠ Cat.id) :
    catPos d ≤ 0 := by
  cases d
  · decide
  · exact absurd rfl h2
  all_goals simp [catPos] at h1

theorem catPos_le4_of_le5_ne_pe {d : Cat} (h1 : catPos d ≤ 5) (h2 : d ≠ Cat.pseudoElement) :
    catPos d ≤ 4 := by
  cases d
  case pseudoElement => exact absurd rfl h2
  all_goals decide

theorem str_append_assoc (a b c : String) : a ++ b ++ c = a ++ (b ++ c) := by
  apply String.ext
  simp only [String.data_append, List.append_assoc]

/-! ### The successful step -/

theorem applyM_ok_of_valid {h : List Cat} {c : Cat} (hne : h ≠ [])
    (hv : validOrder (h ++ [c]) = true) (v val : String) :
    applyM ⟨some (typeOfHistory h), v, none⟩ c val =
      ⟨.ok ⟨some (typeOfHistory (h ++ [c])), v ++ renderFrag c val, none⟩,
        ⟨some (typeOfHistory h), v, none⟩⟩ := by
  obtain ⟨c0, rest, rfl⟩ : ∃ c0 rest, h = c0 :: rest := by
    cases h with
    | nil => exact absurd rfl hne
    | cons c0 rest => exact ⟨c0, rest, rfl⟩
  have hle := valid_snoc_le hv
  have hvi := (validOrder_iff _).mp hv
  have hsnoc := typeOfHistory_snoc c0 rest c
  cases c with
  | element =>
    exfalso
    have h0 : c0 = Cat.element := cat_eq_element_of_le0 (hle c0 (List.mem_cons_self _ _))
    have hnm : Cat.element ∉ c0 :: rest := count_snoc_not_mem hvi.2.1
    subst h0
    exact hnm (List.mem_cons_self _ _)
  | id =>
    have hnm : Cat.id ∉ c0 :: rest := count_snoc_not_mem hvi.2.2.1
    have hinc : jsIncludes (typeOfHistory (c0 :: rest)) "id" = false := by
      rw [Bool.eq_false_iff]
      intro H
      exact hnm ((jsIncludes_id_iff _).mp H)
    have hval : isValidType (typeOfHistory (c0 :: rest)) ["element"] = true := by
      rw [isValidType_le0, List.all_eq_true]
      intro d hd
      have h2 : d ≠ Cat.id := fun he => hnm (he ▸ hd)
      exact decide_eq_true (catPos_le0_of_le1_ne_id (hle d hd) h2)
    have hT : typeOfHistory (c0 :: rest) ++ " id" = typeOfHistory ((c0 :: rest) ++ [Cat.id]) := by
      rw [hsnoc, str_append_assoc]
      exact congrArg (typeOfHistory (c0 :: rest) ++ ·) (by decide)
    have hV : v ++ "#" ++ val = v ++ renderFrag Cat.id val := by
      rw [str_append_assoc]
      rfl
    show BaseSelector.id ⟨some (typeOfHistory (c0 :: rest)), v, none⟩ val = _
    simp only [BaseSelector.id]
    rw [if_neg (by rw [hinc]; simp)]
    rw [if_neg (by rw [hval]; simp)]
    rw [hT, hV]
  | «class» =>
    have hval : isValidType (typeOfHistory (c0 :: rest)) ["element", "id", "class"] = true := by
      rw [isValidType_le2, List.all_eq_true]
      intro d hd
      exact decide_eq_true (hle d hd)
    have hT : typeOfHistory (c0 :: rest) ++ " class"
        = typeOfHistory ((c0 :: rest) ++ [Cat.«class»]) := by
      rw [hsnoc, str_append_assoc]
      exact congrArg (typeOfHistory (c0 :: rest) ++ ·) (by decide)
    have hV : v ++ "." ++ val = v ++ renderFrag Cat.«class» val := by
      rw [str_append_assoc]
      rfl
    show BaseSelector.«class» ⟨some (typeOfHistory (c0 :: rest)), v, none⟩ val = _
    simp only [BaseSelector.«class»]
    rw [if_neg (by rw [hval]; simp)]
    rw [hT, hV]
  | attr =>
    have hval : isValidType (typeOfHistory (c0 :: rest))
        ["element", "id", "class", "attr"] = true := by
      rw [isValidType_le3, List.all_eq_true]
      intro d hd
      exact decide_eq_true (hle d hd)
    have hT : typeOfHistory (c0 :: rest) ++ " attr"
        = typeOfHistory ((c0 :: rest) ++ [Cat.attr]) := by
      rw [hsnoc, str_append_assoc]
      exact congrArg (typeOfHistory (c0 :: rest) ++ ·) (by decide)
    have hV : v ++ "[" ++ val ++ "]" = v ++ renderFrag Cat.attr val := by
      rw [str_append_assoc v "[" val, str_append_assoc]
      rfl
    show BaseSelector.attr ⟨some (typeOfHistory (c0 :: rest)), v, none⟩ val = _
    simp only [BaseSelector.attr]
    rw [if_neg (by rw [hval]; simp)]
    rw [hT, hV]
  | pseudoClass =>
    have hval : isValidType (typeOfHistory (c0 :: rest))
        ["element", "id", "class", "attr", "pseudoClass"] = true := by
      rw [isValidType_le4, List.all_eq_true]
      intro d hd
      exact decide_eq_true (hle d hd)
    have hT : typeOfHistory (c0 :: rest) ++ " pseudoClass"
        = typeOfHistory ((c0 :: rest) ++ [Cat.pseudoClass]) := by
      rw [hsnoc, str_append_assoc]
      exact congrArg (typeOfHistory (c0 :: rest) ++ ·) (by decide)
    have hV : v ++ ":" ++ val = v ++ renderFrag Cat.pseudoClass val := by
      rw [str_append_assoc]
      rfl
    show BaseSelector.pseudoClass ⟨some (typeOfHistory (c0 :: rest)), v, none⟩ val = _
    simp only [BaseSelector.pseudoClass]
    rw [if_neg (by rw [hval]; simp)]
    rw [hT, hV]
  | pseudoElement =>
    have hnm : Cat.pseudoElement ∉ c0 :: rest := count_snoc_not_mem hvi.2.2.2
    have hinc : jsIncludes (typeOfHistory (c0 :: rest)) "pseudoElement" = false := by
      rw [Bool.eq_false_iff]
      intro H
      exact hnm ((jsIncludes_pseudoElement_iff _).mp H)
    have hval : isValidType (typeOfHistory (c0 :: rest))
        ["element", "id", "class", "attr", "pseudoClass"] = true := by
      rw [isValidType_le4, List.all_eq_true]
      intro d hd
      have h2 : d ≠ Cat.pseudoElement := fun he => hnm (he ▸ hd)
      exact decide_eq_true (catPos_le4_of_le5_ne_pe (catPos_le_five d) h2)
    have hT : typeOfHistory (c0 :: rest) ++ " pseudoElement"
        = typeOfHistory ((c0 :: rest) ++ [Cat.pseudoElement]) := by
      rw [hsnoc, str_append_assoc]
      exact congrArg (typeOfHistory (c0 :: rest) ++ ·) (by decide)
    have hV : v ++ "::" ++ val = v ++ renderFrag Cat.pseudoElement val := by
      rw [str_append_assoc]
      rfl
    show BaseSelector.pseudoElement ⟨some (typeOfHistory (c0 :: rest)), v, none⟩ val = _
    simp only [BaseSelector.pseudoElement]
    rw [if_neg (by rw [hinc]; simp)]
    rw [if_neg (by rw [hval]; simp)]
    rw [hT, hV]

theorem str_nil_append (s : String) : "" ++ s = s := by
  apply String.ext
  rw [String.data_append]
  rfl

theorem entry_eq (c : Cat) (v : String) :
    entry c v = ⟨some (typeOfHistory [c]), renderFrag c v, none⟩ := by
  cases c <;> rfl

theorem foldl_stepChain_ok (rest : List (Cat × String)) :
    ∀ (h : List Cat) (v : String), h ≠ [] →
      validOrder (h ++ histOf rest) = true →
      rest.foldl stepChain (.ok ⟨some (typeOfHistory h), v, none⟩)
        = .ok ⟨some (typeOfHistory (h ++ histOf rest)), appendRendered v rest, none⟩ := by
  induction rest with
  | nil =>
    intro h v hne hv
    show SelResult.ok _ = _
    rw [show histOf ([] : List (Cat × String)) = [] from rfl, List.append_nil]
    rfl
  | cons p rest ih =>
    intro h v hne hv
    obtain ⟨c, val⟩ := p
    have hv1 : validOrder ((h ++ [c]) ++ histOf rest) = true := by
      rw [List.append_assoc]
      exact hv
    have hvp : validOrder (h ++ [c]) = true := validOrder_append_left hv1
    show List.foldl stepChain
      (stepChain (.ok ⟨some (typeOfHistory h), v, none⟩) (c, val)) rest = _
    have hstep : stepChain (.ok ⟨some (typeOfHistory h), v, none⟩) (c, val)
        = (applyM ⟨some (typeOfHistory h), v, none⟩ c val).result := rfl
    rw [hstep, applyM_ok_of_valid hne hvp v val]
    have H := ih (h ++ [c]) (v ++ renderFrag c val) (by simp) hv1
    rw [H, List.append_assoc]
    rfl

/-! ### Receiver state after a call -/

theorem applyM_post_value_type (s : BaseSelector) (c : Cat) (val : String) :
    (applyM s c val).post.value = s.value ∧ (applyM s c val).post.type = s.type := by
  obtain ⟨t, v, m⟩ := s
  cases t with
  | none => cases c <;> exact ⟨rfl, rfl⟩
  | some t =>
    cases c <;>
      simp only [applyM, BaseSelector.element, BaseSelector.id, BaseSelector.«class»,
        BaseSelector.attr, BaseSelector.pseudoClass, BaseSelector.pseudoElement] <;>
      repeat' split
    all_goals exact ⟨rfl, rfl⟩

theorem applyM_post_eq (s : BaseSelector) (c : Cat) (val : String) :
    (applyM s c val).post
      = { s with message :=
            match (applyM s c val).result with
            | .ok _ => s.message
            | .error (.thrown m) => some m
            | .error .typeError => s.message } := by
  obtain ⟨t, v, m⟩ := s
  cases t with
  | none => cases c <;> rfl
  | some t =>
    cases c <;>
      simp only [applyM, BaseSelector.element, BaseSelector.id, BaseSelector.«class»,
        BaseSelector.attr, BaseSelector.pseudoClass, BaseSelector.pseudoElement] <;>
      (first
        | rfl
        | (split <;> (first
            | rfl
            | (split <;> rfl))))

theorem all_decide_le {h : List Cat} {k : Nat} (H : ∀ d ∈ h, catPos d ≤ k) :
    h.all (fun c => decide (catPos c ≤ k)) = true :=
  List.all_eq_true.mpr fun d hd => decide_eq_true (H d hd)

theorem all_pos_le_false {h : List Cat} {d : Cat} (hdm : d ∈ h) {k : Nat}
    (hk : k < catPos d) : h.all (fun c => decide (catPos c ≤ k)) = false := by
  apply Bool.eq_false_iff.mpr
  intro H
  have hle := of_decide_eq_true (List.all_eq_true.mp H d hdm)
  omega

/-! ### Claim theorems -/

/-- Claim C1: for every chain built from a facade entry point by appending fragments
in a valid ordering (element, id, class, attribute, pseudo-class, pseudo-element,
with class/attribute/pseudo-class possibly repeated), every chain-extension call
succeeds and `stringify` returns the exact concatenation of each fragment's rendered
syntax in append order with no separators. -/
theorem chain_valid_ok_stringify (first : Cat × String) (rest : List (Cat × String))
    (hv : validOrder (first.1 :: histOf rest) = true) :
    ∃ s, buildChain first rest = .ok s
      ∧ s.stringify = renderedChain (first :: rest) := by
  obtain ⟨c, v⟩ := first
  have H := foldl_stepChain_ok rest [c] (renderFrag c v) (by simp) (by exact hv)
  refine ⟨⟨some (typeOfHistory ([c] ++ histOf rest)),
    appendRendered (renderFrag c v) rest, none⟩, ?_, ?_⟩
  · show rest.foldl stepChain (.ok (entry c v)) = _
    rw [entry_eq]
    exact H
  · show appendRendered (renderFrag c v) rest = appendRendered "" ((c, v) :: rest)
    show appendRendered (renderFrag c v) rest = appendRendered ("" ++ renderFrag c v) rest
    rw [str_nil_append]

/-- Witness for C1 at the spec's example:
`element('a').attr('href$=".png"').pseudoClass('focus').stringify()`
equals `'a[href$=".png"]:focus'`. -/
theorem chain_valid_ok_stringify_witness :
    validOrder (((Cat.element, "a") : Cat × String).1
        :: histOf [(Cat.attr, "href$=\".png\""), (Cat.pseudoClass, "focus")]) = true
    ∧ ∃ s, buildChain (Cat.element, "a")
          [(Cat.attr, "href$=\".png\""), (Cat.pseudoClass, "focus")] = .ok s
        ∧ s.stringify = "a[href$=\".png\"]:focus" := by
  refine ⟨by decide, ?_⟩
  obtain ⟨s, h1, h2⟩ := chain_valid_ok_stringify (Cat.element, "a")
    [(Cat.attr, "href$=\".png\""), (Cat.pseudoClass, "focus")] (by decide)
  exact ⟨s, h1, by rw [h2]; decide⟩

/-- Counterexample to claim C2: the chain element('a').id('b') contains the category
element, yet appending element raises the order error, not the repeated-category
error (the code's repeat check for element is `this.type === 'element'`, an exact
equality, not a membership test on the history). -/
theorem repeat_check_cex :
    (BaseSelector.id (cssSelectorBuilder.element "a") "b").result
        = .ok ⟨some "element id", "a#b", none⟩
    ∧ (BaseSelector.element (⟨some "element id", "a#b", none⟩ : BaseSelector) "c").result
        = .error (.thrown orderMessage)
    ∧ orderMessage ≠ repeatMessage := by
  exact ⟨by decide, by decide, by decide⟩

/-- Claim C2 as amended: appending pseudo-element when pseudo-element already appears
anywhere in the history raises the repeat error (checked before the ordering check);
appending element raises the repeat error only when the history is exactly
[element]; on any other nonempty history (even one containing element) it raises
the order error. -/
theorem repeat_check_amended (h : List Cat) (v val : String) (hne : h ≠ []) :
    (h = [Cat.element] →
      (BaseSelector.element ⟨some (typeOfHistory h), v, none⟩ val).result
        = .error (.thrown repeatMessage))
    ∧ (h ≠ [Cat.element] →
      (BaseSelector.element ⟨some (typeOfHistory h), v, none⟩ val).result
        = .error (.thrown orderMessage))
    ∧ (Cat.pseudoElement ∈ h →
      (BaseSelector.pseudoElement ⟨some (typeOfHistory h), v, none⟩ val).result
        = .error (.thrown repeatMessage)) := by
  refine ⟨?_, ?_, ?_⟩
  · intro he
    subst he
    simp only [BaseSelector.element]
    rw [if_pos (by decide : typeOfHistory [Cat.element] = "element")]
  · intro hne2
    obtain ⟨c0, rest, rfl⟩ : ∃ c0 rest, h = c0 :: rest := by
      cases h with
      | nil => exact absurd rfl hne
      | cons c0 rest => exact ⟨c0, rest, rfl⟩
    simp only [BaseSelector.element]
    rw [if_neg (fun H => hne2 ((typeOfHistory_eq_element_iff _).mp H))]
    rw [if_pos (typeOfHistory_length_pos c0 rest)]
  · intro hmem
    simp only [BaseSelector.pseudoElement]
    rw [if_pos ((jsIncludes_pseudoElement_iff h).mpr hmem)]

/-- Witness for the amended C2 at the histories [element] and [pseudoElement]. -/
theorem repeat_check_amended_witness :
    (([Cat.element] : List Cat) ≠ [])
    ∧ (BaseSelector.element ⟨some (typeOfHistory [Cat.element]), "a", none⟩ "b").result
        = .error (.thrown repeatMessage)
    ∧ Cat.pseudoElement ∈ [Cat.pseudoElement]
    ∧ (BaseSelector.pseudoElement
        ⟨some (typeOfHistory [Cat.pseudoElement]), "::x", none⟩ "y").result
        = .error (.thrown repeatMessage) :=
  ⟨by decide,
   (repeat_check_amended [Cat.element] "a" "b" (by decide)).1 rfl,
   by decide,
   (repeat_check_amended [Cat.pseudoElement] "::x" "y" (by decide)).2.2 (by decide)⟩

/-- Counterexample to claim C3: in the chain id('a').class('b'), the category id is
strictly earlier than the recorded class, yet appending id raises the
repeated-category error (whose message differs from the order message), because the
id repeat check runs before the ordering check. -/
theorem order_check_cex :
    (BaseSelector.«class» (cssSelectorBuilder.id "a") "b").result
        = .ok ⟨some "id class", "#a.b", none⟩
    ∧ (BaseSelector.id (⟨some "id class", "#a.b", none⟩ : BaseSelector) "c").result
        = .error (.thrown repeatMessage)
    ∧ catPos Cat.id < catPos Cat.«class»
    ∧ repeatMessage ≠ orderMessage := by
  exact ⟨by decide, by decide, by decide, by decide⟩

/-- Claim C3 as amended: appending a fragment whose category is strictly earlier in
the fixed order than some category already recorded raises the order error, except
when the appended category is id and id already appears in the history, in which
case the repeated-category error is raised instead. -/
theorem order_check_amended (h : List Cat) (c : Cat) (v val : String)
    (hd : ∃ d ∈ h, catPos c < catPos d) :
    (applyM ⟨some (typeOfHistory h), v, none⟩ c val).result
      = .error (.thrown
          (if c = Cat.id ∧ Cat.id ∈ h then repeatMessage else orderMessage)) := by
  obtain ⟨d, hdm, hdp⟩ := hd
  cases c with
  | element =>
    rw [if_neg (fun hc => Cat.noConfusion hc.1)]
    obtain ⟨c0, rest, rfl⟩ : ∃ c0 rest, h = c0 :: rest := by
      cases h with
      | nil => simp at hdm
      | cons c0 rest => exact ⟨c0, rest, rfl⟩
    have hne2 : (c0 :: rest) ≠ [Cat.element] := by
      intro He
      rw [He] at hdm
      have hd1 := List.mem_singleton.mp hdm
      subst hd1
      simp [catPos] at hdp
    show (BaseSelector.element _ _).result = _
    simp only [BaseSelector.element]
    rw [if_neg (fun H => hne2 ((typeOfHistory_eq_element_iff _).mp H))]
    rw [if_pos (typeOfHistory_length_pos c0 rest)]
  | id =>
    by_cases hid : Cat.id ∈ h
    · rw [if_pos ⟨rfl, hid⟩]
      show (BaseSelector.id _ _).result = _
      simp only [BaseSelector.id]
      rw [if_pos ((jsIncludes_id_iff h).mpr hid)]
    · rw [if_neg (fun hc => hid hc.2)]
      show (BaseSelector.id _ _).result = _
      simp only [BaseSelector.id]
      rw [if_neg (fun H => hid ((jsIncludes_id_iff h).mp H))]
      have hvalid : isValidType (typeOfHistory h) ["element"] = false := by
        rw [isValidType_le0]
        have h1 : (1 : Nat) < catPos d := hdp
        exact all_pos_le_false hdm (by omega)
      rw [if_pos (by rw [hvalid]; rfl)]
  | «class» =>
    rw [if_neg (fun hc => Cat.noConfusion hc.1)]
    show (BaseSelector.«class» _ _).result = _
    simp only [BaseSelector.«class»]
    have hvalid : isValidType (typeOfHistory h) ["element", "id", "class"] = false := by
      rw [isValidType_le2]
      exact all_pos_le_false hdm hdp
    rw [if_pos (by rw [hvalid]; rfl)]
  | attr =>
    rw [if_neg (fun hc => Cat.noConfusion hc.1)]
    show (BaseSelector.attr _ _).result = _
    simp only [BaseSelector.attr]
    have hvalid : isValidType (typeOfHistory h)
        ["element", "id", "class", "attr"] = false := by
      rw [isValidType_le3]
      exact all_pos_le_false hdm hdp
    rw [if_pos (by rw [hvalid]; rfl)]
  | pseudoClass =>
    rw [if_neg (fun hc => Cat.noConfusion hc.1)]
    show (BaseSelector.pseudoClass _ _).result = _
    simp only [BaseSelector.pseudoClass]
    have hvalid : isValidType (typeOfHistory h)
        ["element", "id", "class", "attr", "pseudoClass"] = false := by
      rw [isValidType_le4]
      exact all_pos_le_false hdm hdp
    rw [if_pos (by rw [hvalid]; rfl)]
  | pseudoElement =>
    exfalso
    have h5 := catPos_le_five d
    have h5' : (5 : Nat) < catPos d := hdp
    omega

/-- Witness for the amended C3: appending id after class gives the order error. -/
theorem order_check_amended_witness :
    (∃ d ∈ [Cat.«class»], catPos Cat.id < catPos d)
    ∧ (applyM ⟨some (typeOfHistory [Cat.«class»]), ".b", none⟩ Cat.id "c").result
        = .error (.thrown
            (if Cat.id = Cat.id ∧ Cat.id ∈ [Cat.«class»]
              then repeatMessage else orderMessage))
    ∧ (if Cat.id = Cat.id ∧ Cat.id ∈ [Cat.«class»]
        then repeatMessage else orderMessage) = orderMessage :=
  ⟨by decide, order_check_amended [Cat.«class»] Cat.id ".b" "c" (by decide), by decide⟩

/-- Claim C4: combine renders `left ++ " " ++ combinator ++ " " ++ right` with the
combinator inserted verbatim and unvalidated; in particular combining "div#main" and
"table#data" with '+' gives "div#main + table#data", and with a single-space
combinator the result carries exactly three spaces between the fragments. -/
theorem combine_stringify (s1 s2 : BaseSelector) (comb : String) :
    (cssSelectorBuilder.combine s1 comb s2).stringify
        = s1.stringify ++ " " ++ comb ++ " " ++ s2.stringify
    ∧ (cssSelectorBuilder.combine (⟨some "element id", "div#main", none⟩ : BaseSelector)
        "+" (⟨some "element id", "table#data", none⟩ : BaseSelector)).stringify
        = "div#main + table#data"
    ∧ (cssSelectorBuilder.combine (⟨some "element id", "div#main", none⟩ : BaseSelector)
        " " (⟨some "element id", "table#data", none⟩ : BaseSelector)).stringify
        = "div#main   table#data" :=
  ⟨rfl, by decide, by decide⟩

/-- Counterexample to claim C5: in the chain class('a').pseudoClass('b'), class is
already present, yet appending another class fragment raises the order error
(because the history also contains the later category pseudo-class). -/
theorem order_whole_history_cex :
    (BaseSelector.pseudoClass (cssSelectorBuilder.«class» "a") "b").result
        = .ok ⟨some "class pseudoClass", ".a:b", none⟩
    ∧ (BaseSelector.«class» (⟨some "class pseudoClass", ".a:b", none⟩ : BaseSelector) "c").result
        = .error (.thrown orderMessage) := by
  exact ⟨by decide, by decide⟩

/-- Claim C5 as amended: the ordering check compares the new category against the
entire accumulated history; appending a category equal in position to one already
present never raises the order error provided every recorded category is at or
before the appended category in the fixed order; and
id('main').class('container').class('editable') stringifies to
"#main.container.editable". -/
theorem order_whole_history_amended (h : List Cat) (c : Cat) (v val : String)
    (hvalid : validOrder h = true) (hle : ∀ d ∈ h, catPos d ≤ catPos c) :
    ((applyM ⟨some (typeOfHistory h), v, none⟩ c val).result
        ≠ .error (.thrown orderMessage))
    ∧ stringifyResult (buildChain (Cat.id, "main")
        [(Cat.«class», "container"), (Cat.«class», "editable")])
        = some "#main.container.editable" := by
  refine ⟨?_, by decide⟩
  cases c with
  | element =>
    cases h with
    | nil =>
      show (BaseSelector.element ⟨some (typeOfHistory []), v, none⟩ val).result ≠ _
      simp only [BaseSelector.element]
      rw [if_neg (by decide : ¬ typeOfHistory [] = "element")]
      rw [if_neg (by decide : ¬ 0 < (typeOfHistory []).length)]
      exact fun H => SelResult.noConfusion H
    | cons c0 rest =>
      have hc0 : c0 = Cat.element :=
        cat_eq_element_of_le0 (hle c0 (List.mem_cons_self _ _))
      have hrest : rest = [] := by
        cases rest with
        | nil => rfl
        | cons e es =>
          exfalso
          have he : e = Cat.element := cat_eq_element_of_le0 (hle e (by simp))
          have hcnt := ((validOrder_iff _).mp hvalid).2.1
          subst hc0
          subst he
          simp [List.count_cons_self] at hcnt
      subst hc0
      subst hrest
      show (BaseSelector.element ⟨some (typeOfHistory [Cat.element]), v, none⟩ val).result ≠ _
      simp only [BaseSelector.element]
      rw [if_pos (by decide : typeOfHistory [Cat.element] = "element")]
      intro H
      have H2 : SelResult.error (SelErr.thrown repeatMessage)
          = SelResult.error (SelErr.thrown orderMessage) := H
      exact absurd H2 (by decide)
  | id =>
    by_cases hid : Cat.id ∈ h
    · show (BaseSelector.id ⟨some (typeOfHistory h), v, none⟩ val).result ≠ _
      simp only [BaseSelector.id]
      rw [if_pos ((jsIncludes_id_iff h).mpr hid)]
      intro H
      have H2 : SelResult.error (SelErr.thrown repeatMessage)
          = SelResult.error (SelErr.thrown orderMessage) := H
      exact absurd H2 (by decide)
    · have hval : isValidType (typeOfHistory h) ["element"] = true := by
        rw [isValidType_le0]
        refine all_decide_le fun d hd => ?_
        exact catPos_le0_of_le1_ne_id (hle d hd) (fun he => hid (he ▸ hd))
      show (BaseSelector.id ⟨some (typeOfHistory h), v, none⟩ val).result ≠ _
      simp only [BaseSelector.id]
      rw [if_neg (fun H => hid ((jsIncludes_id_iff h).mp H))]
      rw [if_neg (by rw [hval]; simp)]
      exact fun H => SelResult.noConfusion H
  | «class» =>
    have hval : isValidType (typeOfHistory h) ["element", "id", "class"] = true := by
      rw [isValidType_le2]
      exact all_decide_le hle
    show (BaseSelector.«class» ⟨some (typeOfHistory h), v, none⟩ val).result ≠ _
    simp only [BaseSelector.«class»]
    rw [if_neg (by rw [hval]; simp)]
    exact fun H => SelResult.noConfusion H
  | attr =>
    have hval : isValidType (typeOfHistory h)
        ["element", "id", "class", "attr"] = true := by
      rw [isValidType_le3]
      exact all_decide_le hle
    show (BaseSelector.attr ⟨some (typeOfHistory h), v, none⟩ val).result ≠ _
    simp only [BaseSelector.attr]
    rw [if_neg (by rw [hval]; simp)]
    exact fun H => SelResult.noConfusion H
  | pseudoClass =>
    have hval : isValidType (typeOfHistory h)
        ["element", "id", "class", "attr", "pseudoClass"] = true := by
      rw [isValidType_le4]
      exact all_decide_le hle
    show (BaseSelector.pseudoClass ⟨some (typeOfHistory h), v, none⟩ val).result ≠ _
    simp only [BaseSelector.pseudoClass]
    rw [if_neg (by rw [hval]; simp)]
    exact fun H => SelResult.noConfusion H
  | pseudoElement =>
    by_cases hpe : Cat.pseudoElement ∈ h
    · show (BaseSelector.pseudoElement ⟨some (typeOfHistory h), v, none⟩ val).result ≠ _
      simp only [BaseSelector.pseudoElement]
      rw [if_pos ((jsIncludes_pseudoElement_iff h).mpr hpe)]
      intro H
      have H2 : SelResult.error (SelErr.thrown repeatMessage)
          = SelResult.error (SelErr.thrown orderMessage) := H
      exact absurd H2 (by decide)
    · have hval : isValidType (typeOfHistory h)
          ["element", "id", "class", "attr", "pseudoClass"] = true := by
        rw [isValidType_le4]
        refine all_decide_le fun d hd => ?_
        exact catPos_le4_of_le5_ne_pe (catPos_le_five d) (fun he => hpe (he ▸ hd))
      show (BaseSelector.pseudoElement ⟨some (typeOfHistory h), v, none⟩ val).result ≠ _
      simp only [BaseSelector.pseudoElement]
      rw [if_neg (fun H => hpe ((jsIncludes_pseudoElement_iff h).mp H))]
      rw [if_neg (by rw [hval]; simp)]
      exact fun H => SelResult.noConfusion H

/-- Witness for the amended C5: a third class after [id, class, class] raises no
order error. -/
theorem order_whole_history_amended_witness :
    validOrder [Cat.id, Cat.«class», Cat.«class»] = true
    ∧ (∀ d ∈ [Cat.id, Cat.«class», Cat.«class»], catPos d ≤ catPos Cat.«class»)
    ∧ ((applyM ⟨some (typeOfHistory [Cat.id, Cat.«class», Cat.«class»]),
          "#main.container.editable", none⟩ Cat.«class» "x").result
        ≠ .error (.thrown orderMessage))
    ∧ stringifyResult (buildChain (Cat.id, "main")
        [(Cat.«class», "container"), (Cat.«class», "editable")])
        = some "#main.container.editable" := by
  have H := order_whole_history_amended [Cat.id, Cat.«class», Cat.«class»] Cat.«class»
    "#main.container.editable" "x" (by decide) (by decide)
  exact ⟨by decide, by decide, H.1, H.2⟩

/-- Counterexample to claim C6: calling element on a combined selector does not
succeed; it fails with a TypeError (the combined selector's type is undefined),
which is neither of the two specified selector errors. -/
theorem combine_extend_cex :
    (BaseSelector.element (cssSelectorBuilder.combine (cssSelectorBuilder.element "div")
        "+" (cssSelectorBuilder.element "p")) "a").result = .error .typeError
    ∧ SelErr.typeError ≠ SelErr.thrown orderMessage
    ∧ SelErr.typeError ≠ SelErr.thrown repeatMessage := by
  exact ⟨by decide, by decide, by decide⟩

/-- Claim C6 as amended: every one of the six fragment methods, called on any
selector produced by combine, fails with a TypeError (reading a property of the
undefined type), rather than succeeding; it raises neither of the two specified
selector errors. -/
theorem combine_extend_amended (s1 s2 : BaseSelector) (comb : String)
    (c : Cat) (val : String) :
    (applyM (cssSelectorBuilder.combine s1 comb s2) c val).result
      = .error .typeError := by
  cases c <;> rfl

/-- Claim C7: stringify is a pure observation: it returns the accumulated rendered
string, leaves the receiver unchanged (the method body contains no assignment), and
repeated calls return the same string. -/
theorem stringify_pure (s : BaseSelector) :
    s.stringifyM = (s.value, s)
    ∧ s.stringifyM.2.stringifyM.1 = s.stringifyM.1
    ∧ s.stringify = s.value :=
  ⟨rfl, rfl, rfl⟩

/-- Counterexample to claim C8: a failing fragment call does mutate the receiver:
after id('a').element('b') fails, the receiver object carries the assigned message
property, so it is no longer equal to its previous state. -/
theorem mutation_cex :
    (BaseSelector.element (cssSelectorBuilder.id "a") "b").post ≠ cssSelectorBuilder.id "a"
    ∧ (BaseSelector.element (cssSelectorBuilder.id "a") "b").post
        = ⟨some "id", "#a", some orderMessage⟩
    ∧ cssSelectorBuilder.id "a" = ⟨some "id", "#a", none⟩ := by
  exact ⟨by decide, by decide, by decide⟩

/-- Claim C8 as amended: a successful fragment call or a combine never mutates the
receiver or argument selectors; a failing fragment call mutates only the receiver's
message property (set to the thrown message), leaving its type history and rendered
value unchanged. -/
theorem mutation_amended (s : BaseSelector) (c : Cat) (val : String) :
    (applyM s c val).post
        = { s with message :=
              match (applyM s c val).result with
              | .ok _ => s.message
              | .error (.thrown m) => some m
              | .error .typeError => s.message }
    ∧ (applyM s c val).post.value = s.value
    ∧ (applyM s c val).post.type = s.type :=
  ⟨applyM_post_eq s c val, (applyM_post_value_type s c val).1,
    (applyM_post_value_type s c val).2⟩

/-- Claim C9: for every chain whose category history already contains id, appending
another id fragment raises the repeated-category error: the code enforces
at-most-once for id as well, not only for element and pseudo-element. -/
theorem id_repeat_enforced (h : List Cat) (v val : String) (m : Option String)
    (hid : Cat.id ∈ h) :
    (BaseSelector.id ⟨some (typeOfHistory h), v, m⟩ val).result
      = .error (.thrown repeatMessage) := by
  simp only [BaseSelector.id]
  rw [if_pos ((jsIncludes_id_iff h).mpr hid)]

/-- Witness for C9 at the history [id]. -/
theorem id_repeat_enforced_witness :
    Cat.id ∈ [Cat.id]
    ∧ (BaseSelector.id ⟨some (typeOfHistory [Cat.id]), "#a", none⟩ "b").result
        = .error (.thrown repeatMessage) :=
  ⟨by decide, id_repeat_enforced [Cat.id] "#a" "b" none (by decide)⟩

/-- Claim C10: when a fragment call fails with the repeated-category or the order
error, the receiver's rendered string and category history are unchanged, and
stringify on the receiver after the failed call returns the same string as
before. -/
theorem failed_call_receiver_unchanged (s : BaseSelector) (c : Cat) (val : String)
    (_hfail : (applyM s c val).result = .error (.thrown repeatMessage)
      ∨ (applyM s c val).result = .error (.thrown orderMessage)) :
    (applyM s c val).post.value = s.value
    ∧ (applyM s c val).post.type = s.type
    ∧ (applyM s c val).post.stringify = s.stringify :=
  ⟨(applyM_post_value_type s c val).1, (applyM_post_value_type s c val).2,
    (applyM_post_value_type s c val).1⟩

/-- Witness for C10 at a failing call: id('a').element('b') fails with the order
error and the receiver keeps value "#a" and type "id". -/
theorem failed_call_receiver_unchanged_witness :
    ((applyM (cssSelectorBuilder.id "a") Cat.element "b").result
        = .error (.thrown repeatMessage)
      ∨ (applyM (cssSelectorBuilder.id "a") Cat.element "b").result
        = .error (.thrown orderMessage))
    ∧ (applyM (cssSelectorBuilder.id "a") Cat.element "b").post.value
        = (cssSelectorBuilder.id "a").value
    ∧ (applyM (cssSelectorBuilder.id "a") Cat.element "b").post.type
        = (cssSelectorBuilder.id "a").type
    ∧ (applyM (cssSelectorBuilder.id "a") Cat.element "b").post.stringify
        = (cssSelectorBuilder.id "a").stringify :=
  ⟨Or.inr (by decide),
    failed_call_receiver_unchanged (cssSelectorBuilder.id "a") Cat.element "b"
      (Or.inr (by decide))⟩
